import Mathlib

/-!
Verification of the JAR/APK v1 signing subsystem of the keylay repository
(file `src/keylay/apk_builder.py`), shallowly embedded in Lean.

Byte strings are `List Nat`, one element per byte. The external SHA-256
primitive (Python `hashlib.sha256(...).digest()`) is treated as an
uninterpreted function `sha256 : Bytes → Bytes`; every structural property
proved here holds for an arbitrary such function. Base64 and UTF-8 encoding
are implemented concretely, following the algorithms that the Python
library functions `base64.b64encode` and `str.encode("utf-8")` compute.
-/

namespace Keylay

/-- Byte strings: one natural number per byte. -/
abbrev Bytes := List Nat

/-- UTF-8 encoding of a single code point, the per-character step of Python
`str.encode("utf-8")`. -/
def utf8Char (c : Char) : Bytes :=
  let n := c.toNat
  if n < 0x80 then [n]
  else if n < 0x800 then [0xC0 + n / 0x40, 0x80 + n % 0x40]
  else if n < 0x10000 then [0xE0 + n / 0x1000, 0x80 + n / 0x40 % 0x40, 0x80 + n % 0x40]
  else [0xF0 + n / 0x40000, 0x80 + n / 0x1000 % 0x40, 0x80 + n / 0x40 % 0x40, 0x80 + n % 0x40]

/-- UTF-8 encoding of a string, Python `s.encode("utf-8")`. -/
def utf8 (s : String) : Bytes := s.data.flatMap utf8Char

/-- The 64 base64 digit characters, in order. -/
def b64Table : List Char :=
  "ABCDEFGHIJKLMNOPQRSTUVWXYZabcdefghijklmnopqrstuvwxyz0123456789+/".data

/-- Digit lookup for base64; indices are below 64 wherever this is used. -/
def b64Digit (n : Nat) : Char := b64Table.getD n '='

/-- Base64 encoding of a byte string, three input bytes per four output
characters, with padding, as Python `base64.b64encode` computes it. -/
def b64Chunks : Bytes → List Char
  | a :: b :: c :: rest =>
      let n := a * 0x10000 + b * 0x100 + c
      b64Digit (n / 0x40000) :: b64Digit (n / 0x1000 % 64) ::
        b64Digit (n / 64 % 64) :: b64Digit (n % 64) :: b64Chunks rest
  | [a, b] =>
      let n := a * 0x10000 + b * 0x100
      [b64Digit (n / 0x40000), b64Digit (n / 0x1000 % 64), b64Digit (n / 64 % 64), '=']
  | [a] =>
      let n := a * 0x10000
      [b64Digit (n / 0x40000), b64Digit (n / 0x1000 % 64), '=', '=']
  | [] => []

/-- Base64 encoding as an ASCII string, Python
`base64.b64encode(x).decode("ascii")`. -/
def b64encode (bs : Bytes) : String := ⟨b64Chunks bs⟩

/-- Does the first list occur at the very start of the second? -/
def leadsList : List Char → List Char → Bool
  | [], _ => true
  | _ :: _, [] => false
  | a :: as, b :: bs => a == b && leadsList as bs

/-- Python `s.startswith(p)`. -/
def strStarts (s p : String) : Bool := leadsList p.data s.data

/-- Python `s.endswith(p)`. -/
def strEnds (s p : String) : Bool := leadsList p.data.reverse s.data.reverse

/-- Strict lexicographic order on lists over a linear order, how Python
compares strings, byte strings and tuples componentwise. -/
def lexLtb {α : Type} [LinearOrder α] : List α → List α → Bool
  | [], [] => false
  | [], _ :: _ => true
  | _ :: _, [] => false
  | a :: as, b :: bs => decide (a < b) || (decide (a = b) && lexLtb as bs)

/-- Lexicographic order on lists, non-strict. -/
def lexLeb {α : Type} [LinearOrder α] (x y : List α) : Bool :=
  lexLtb x y || decide (x = y)

/-- Python strict order on strings: lexicographic on code points. -/
def strLt (s t : String) : Bool := lexLtb s.data t.data

/-- Python tuple order on `(name, content)` pairs, as used by
`sorted(files.items())`: compare names first, on a tie compare contents. -/
def pairLe (p q : String × Bytes) : Bool :=
  strLt p.1 q.1 || (decide (p.1 = q.1) && lexLeb p.2 q.2)

/-- Python `sorted(files.items())`. -/
def sortPairs (files : List (String × Bytes)) : List (String × Bytes) :=
  files.mergeSort pairLe

/-- One entry of a ZIP archive: its stored name and its stored content. A
name ending in a slash marks a directory entry. -/
structure ZipEntry where
  filename : String
  content : Bytes
deriving DecidableEq

/-- Python `ZipInfo.is_dir()`. -/
def ZipEntry.isDir (e : ZipEntry) : Bool := strEnds e.filename "/"

/-- Python `ZipFile.read(name)`: the zipfile module resolves a name through
a dict built by inserting every entry in archive order, so the last entry
with a given name wins. Reading an absent name cannot happen in the code
modelled below, where every name read comes from the entry list itself. -/
def zipRead (entries : List ZipEntry) (name : String) : Bytes :=
  match entries.foldl (fun acc e => if e.filename = name then some e.content else acc)
      (none : Option Bytes) with
  | some c => c
  | none => []

/-- A Python dict with string keys, as an insertion-ordered association
list with unique keys. -/
abbrev StrDict := List (String × Bytes)

/-- Python dict lookup, covering both `k in d` and `d[k]`. -/
def dictGet? (d : StrDict) (k : String) : Option Bytes :=
  (d.find? (fun p => p.1 == k)).map Prod.snd

/-- Python dict assignment: overwrite in place if the key exists, otherwise
append at the end, since dicts preserve insertion order. -/
def dictInsert (d : StrDict) (k : String) (v : Bytes) : StrDict :=
  if d.any (fun p => p.1 == k) then d.map (fun p => if p.1 = k then (k, v) else p)
  else d ++ [(k, v)]

/-- The check `sign_apk` uses to drop pre-existing signature metadata
entries of the template. -/
def isSignatureMeta (name : String) : Bool :=
  strStarts name "META-INF/" &&
    (strEnds name ".SF" || strEnds name ".RSA" || strEnds name ".DSA" ||
      strEnds name ".EC" || name == "META-INF/MANIFEST.MF")

/-- One iteration of the collection loop of `sign_apk`. -/
def collectStep (tmpl : List ZipEntry) (repl : StrDict) (files : StrDict)
    (info : ZipEntry) : StrDict :=
  if info.isDir then files
  else if isSignatureMeta info.filename then files
  else
    match dictGet? repl info.filename with
    | some v => dictInsert files info.filename v
    | none => dictInsert files info.filename (zipRead tmpl info.filename)

/-- The collection loop of `sign_apk`: build the entry set `files` from the
template archive and the replacements dict. -/
def buildFiles (tmpl : List ZipEntry) (repl : StrDict) : StrDict :=
  tmpl.foldl (collectStep tmpl repl) []

section Signing

variable (sha256 : Bytes → Bytes)

/-- Method `ApkSigner._hash_file`: SHA-256 of the content, base64 encoded. -/
def _hash_file (data : Bytes) : String := b64encode (sha256 data)

/-- Method `ApkSigner._create_manifest`. -/
def _create_manifest (files : StrDict) : Bytes :=
  let lines : List String := ["Manifest-Version: 1.0", "Created-By: keylay", ""]
  let lines := (sortPairs files).foldl
    (fun ls p => ls ++ ["Name: " ++ p.1, "SHA-256-Digest: " ++ _hash_file sha256 p.2, ""])
    lines
  utf8 (String.intercalate "\r\n" lines)

/-- Method `ApkSigner._hash_manifest_section`. -/
def _hash_manifest_section (name digest : String) : String :=
  b64encode (sha256 (utf8 ("Name: " ++ name ++ "\r\nSHA-256-Digest: " ++ digest ++ "\r\n\r\n")))

/-- Method `ApkSigner._hash_manifest_main`. -/
def _hash_manifest_main : String :=
  b64encode (sha256 (utf8 "Manifest-Version: 1.0\r\nCreated-By: keylay\r\n\r\n"))

/-- Method `ApkSigner._create_signature_file`. -/
def _create_signature_file (manifest : Bytes) (files : StrDict) : Bytes :=
  let manifest_hash := b64encode (sha256 manifest)
  let main_hash := _hash_manifest_main sha256
  let lines : List String := [
    "Signature-Version: 1.0",
    "Created-By: keylay",
    "SHA-256-Digest-Manifest: " ++ manifest_hash,
    "SHA-256-Digest-Manifest-Main-Attributes: " ++ main_hash,
    ""]
  let lines := (sortPairs files).foldl
    (fun ls p => ls ++ ["Name: " ++ p.1,
      "SHA-256-Digest: " ++ _hash_manifest_section sha256 p.1 (_hash_file sha256 p.2), ""])
    lines
  utf8 (String.intercalate "\r\n" lines)

end Signing

/-- Options of the external cryptography PKCS7 signing API. -/
inductive PKCS7Option
  | DetachedSignature
  | NoCapabilities
  | NoAttributes
  | NoCerts
  | Text
  | Binary
deriving DecidableEq

/-- Hash algorithm choices offered to the signing API. -/
inductive HashAlg
  | SHA1
  | SHA256
  | SHA512
deriving DecidableEq

/-- Signed attribute kinds a CMS SignerInfo can carry here. -/
inductive SignedAttr
  | contentType
  | messageDigest (digest : Bytes)
  | smimeCapabilities
deriving DecidableEq

/-- A CMS SignerInfo as the external library builds it: certificate, digest
algorithm and the signed attribute list. -/
structure SignerInfo (C : Type) where
  cert : C
  alg : HashAlg
  signedAttrs : List SignedAttr

/-- The result of signing: detached flag, optional embedded content, and
the signer infos. -/
structure SignedData (C : Type) where
  detached : Bool
  content : Option Bytes
  signerInfos : List (SignerInfo C)

/-- Builder state of the external PKCS7 signing API: optional data and the
signers added so far. -/
structure PKCS7SignatureBuilder (C K : Type) where
  data : Option Bytes
  signers : List (C × K × HashAlg)

/-- Library call `set_data`. -/
def PKCS7SignatureBuilder.set_data {C K : Type} (b : PKCS7SignatureBuilder C K)
    (d : Bytes) : PKCS7SignatureBuilder C K :=
  ⟨some d, b.signers⟩

/-- Library call `add_signer`. -/
def PKCS7SignatureBuilder.add_signer {C K : Type} (b : PKCS7SignatureBuilder C K)
    (cert : C) (key : K) (alg : HashAlg) : PKCS7SignatureBuilder C K :=
  ⟨b.data, b.signers ++ [(cert, key, alg)]⟩

/-- Model of the external library call `PKCS7SignatureBuilder.sign`, from
its documented semantics, which the repository relies on: every signer gets
a content-type and a message-digest signed attribute, the digest taken over
the data under the signer digest algorithm, plus an SMIMECapabilities
attribute unless the `NoCapabilities` option is passed; the `NoAttributes`
option drops all signed attributes; the `DetachedSignature` option omits
the content from the container. `hashOf` stands for the digest primitives
of the library. -/
def PKCS7SignatureBuilder.sign {C K : Type} (hashOf : HashAlg → Bytes → Bytes)
    (b : PKCS7SignatureBuilder C K) (options : List PKCS7Option) : SignedData C :=
  ⟨decide (PKCS7Option.DetachedSignature ∈ options),
    if PKCS7Option.DetachedSignature ∈ options then none else b.data,
    b.signers.map (fun s =>
      ⟨s.1, s.2.2,
        if PKCS7Option.NoAttributes ∈ options then []
        else
          [SignedAttr.contentType,
            SignedAttr.messageDigest (hashOf s.2.2 (b.data.getD []))] ++
            (if PKCS7Option.NoCapabilities ∈ options then []
             else [SignedAttr.smimeCapabilities])⟩)⟩

/-- Signing identity loaded once and reused: certificate and private key,
as held by class `ApkSigner`. -/
structure ApkSigner (C K : Type) where
  cert : C
  private_key : K

/-- Method `ApkSigner._create_pkcs7_signature`: detached, single signer,
SHA-256, with the `NoCapabilities` option set. -/
def _create_pkcs7_signature {C K : Type} (hashOf : HashAlg → Bytes → Bytes)
    (signer : ApkSigner C K) (data : Bytes) : SignedData C :=
  PKCS7SignatureBuilder.sign hashOf
    (PKCS7SignatureBuilder.add_signer
      (PKCS7SignatureBuilder.set_data ⟨none, []⟩ data)
      signer.cert signer.private_key HashAlg.SHA256)
    [PKCS7Option.DetachedSignature, PKCS7Option.NoCapabilities]

/-- Method `ApkSigner.sign_apk`, modelled as the sequence of name-content
pairs written to the output archive, in write order. `der` stands for the
DER serialization the external library applies to the detached signature. -/
def sign_apk {C K : Type} (sha256 : Bytes → Bytes) (hashOf : HashAlg → Bytes → Bytes)
    (der : SignedData C → Bytes) (signer : ApkSigner C K)
    (input_zip : List ZipEntry) (replacements : StrDict) : List (String × Bytes) :=
  let files := buildFiles input_zip replacements
  let manifest := _create_manifest sha256 files
  let sig_file := _create_signature_file sha256 manifest files
  let pkcs7_sig := der (_create_pkcs7_signature hashOf signer sig_file)
  [("META-INF/MANIFEST.MF", manifest), ("META-INF/KEYLAY.SF", sig_file),
    ("META-INF/KEYLAY.RSA", pkcs7_sig)] ++ files

/-- A template entry whose read may fail: `none` models `ZipFile.read`
raising a format error for that entry (for instance a corrupt local
header). Used for the error-handling model of `sign_apk`. -/
structure FZipEntry where
  filename : String
  readResult : Option Bytes
deriving DecidableEq

/-- Directory check for fallible entries. -/
def FZipEntry.isDir (e : FZipEntry) : Bool := strEnds e.filename "/"

/-- Fallible `ZipFile.read(name)`: last entry with the name wins, and its
read outcome is returned. -/
def fzipRead (entries : List FZipEntry) (name : String) : Option Bytes :=
  match entries.foldl (fun acc e => if e.filename = name then some e.readResult else acc)
      (none : Option (Option Bytes)) with
  | some r => r
  | none => none

/-- The collection loop of `sign_apk` with fallible reads: the accumulator
becomes `none` as soon as a read raises, and the loop aborts from then on,
as an exception propagating out of the loop does. -/
def collectStepF (tmpl : List FZipEntry) (repl : StrDict) (acc : Option StrDict)
    (info : FZipEntry) : Option StrDict :=
  match acc with
  | none => none
  | some files =>
    if info.isDir then some files
    else if isSignatureMeta info.filename then some files
    else
      match dictGet? repl info.filename with
      | some v => some (dictInsert files info.filename v)
      | none =>
        match fzipRead tmpl info.filename with
        | some data => some (dictInsert files info.filename data)
        | none => none

/-- The collection loop with fallible reads. -/
def buildFilesF (tmpl : List FZipEntry) (repl : StrDict) : Option StrDict :=
  tmpl.foldl (collectStepF tmpl repl) (some [])

/-- Method `ApkSigner.sign_apk` with fallible reads, tracking the
caller-supplied output buffer: every template read happens in the
collection loop, and the output archive is opened and written only after
that loop finishes, so an error propagates before any write. Returns the
outcome and the final buffer contents. -/
def sign_apkF {C K : Type} (sha256 : Bytes → Bytes) (hashOf : HashAlg → Bytes → Bytes)
    (der : SignedData C → Bytes) (signer : ApkSigner C K)
    (tmpl : List FZipEntry) (repl : StrDict) (out0 : List (String × Bytes)) :
    Option Unit × List (String × Bytes) :=
  match buildFilesF tmpl repl with
  | none => (none, out0)
  | some files =>
    let manifest := _create_manifest sha256 files
    let sig_file := _create_signature_file sha256 manifest files
    let pkcs7_sig := der (_create_pkcs7_signature hashOf signer sig_file)
    (some (), out0 ++ [("META-INF/MANIFEST.MF", manifest), ("META-INF/KEYLAY.SF", sig_file),
      ("META-INF/KEYLAY.RSA", pkcs7_sig)] ++ files)

/-- Concrete stand-in for the hash primitive, used only to instantiate
witness statements; every theorem below holds for an arbitrary hash. -/
def demoHash (bs : Bytes) : Bytes := bs

/-- Concrete stand-in for the per-algorithm digest primitives. -/
def demoHashOf (_a : HashAlg) (bs : Bytes) : Bytes := bs

/-- Concrete stand-in for DER serialization. -/
def demoDer (_s : SignedData Unit) : Bytes := []

/-- Concrete stand-in signing identity. -/
def demoSigner : ApkSigner Unit Unit := ⟨(), ()⟩

/-- Folding list-append over a list equals the initial segment followed by
the flattened images; this turns the line-building loops of the manifest
and of the signature file into closed form. -/
theorem foldl_extend_eq {α β : Type} (f : α → List β) :
    ∀ (l : List α) (init : List β),
      l.foldl (fun acc a => acc ++ f a) init = init ++ l.flatMap f := by
  intro l
  induction l with
  | nil => intro init; simp
  | cons a as ih =>
    intro init
    simp only [List.foldl_cons, List.flatMap_cons, ih, List.append_assoc]

/-- The strict lexicographic list order is transitive. -/
theorem lexLtb_trans {α : Type} [LinearOrder α] :
    ∀ (x y z : List α), lexLtb x y = true → lexLtb y z = true → lexLtb x z = true := by
  intro x
  induction x with
  | nil =>
    intro y z hxy hyz
    cases y <;> cases z <;> simp_all [lexLtb]
  | cons a as ih =>
    intro y z hxy hyz
    cases y with
    | nil => simp [lexLtb] at hxy
    | cons b bs =>
      cases z with
      | nil => simp [lexLtb] at hyz
      | cons c cs =>
        simp only [lexLtb, Bool.or_eq_true, Bool.and_eq_true, decide_eq_true_eq] at hxy hyz ⊢
        rcases hxy with h1 | ⟨hab, h2⟩
        · rcases hyz with h3 | ⟨hbc, h4⟩
          · exact Or.inl (lt_trans h1 h3)
          · exact Or.inl (lt_of_lt_of_le h1 (le_of_eq hbc))
        · rcases hyz with h3 | ⟨hbc, h4⟩
          · exact Or.inl (lt_of_le_of_lt (le_of_eq hab) h3)
          · exact Or.inr ⟨hab.trans hbc, ih bs cs h2 h4⟩

/-- Two lists neither of which is lexicographically below the other are
equal. -/
theorem lexLtb_eq_of_not {α : Type} [LinearOrder α] :
    ∀ (x y : List α), lexLtb x y = false → lexLtb y x = false → x = y := by
  intro x
  induction x with
  | nil =>
    intro y h1 _
    cases y with
    | nil => rfl
    | cons b bs => simp [lexLtb] at h1
  | cons a as ih =>
    intro y h1 h2
    cases y with
    | nil => simp [lexLtb] at h2
    | cons b bs =>
      simp only [lexLtb, Bool.or_eq_false_iff, Bool.and_eq_false_iff,
        decide_eq_false_iff_not] at h1 h2
      have hab : a = b := le_antisymm (not_lt.mp h2.1) (not_lt.mp h1.1)
      have h1b : lexLtb as bs = false := h1.2.resolve_left (fun hn => hn hab)
      have h2b : lexLtb bs as = false := h2.2.resolve_left (fun hn => hn hab.symm)
      rw [hab, ih bs h1b h2b]

/-- The non-strict lexicographic list order is transitive. -/
theorem lexLeb_trans {α : Type} [LinearOrder α] (x y z : List α)
    (h1 : lexLeb x y = true) (h2 : lexLeb y z = true) : lexLeb x z = true := by
  simp only [lexLeb, Bool.or_eq_true, decide_eq_true_eq] at h1 h2 ⊢
  rcases h1 with h1 | rfl
  · rcases h2 with h2 | rfl
    · exact Or.inl (lexLtb_trans x y z h1 h2)
    · exact Or.inl h1
  · exact h2

/-- The Python tuple order used by the sort is transitive. -/
theorem pairLe_trans (a b c : String × Bytes)
    (h1 : pairLe a b = true) (h2 : pairLe b c = true) : pairLe a c = true := by
  simp only [pairLe, strLt, Bool.or_eq_true, Bool.and_eq_true, decide_eq_true_eq] at h1 h2 ⊢
  rcases h1 with h1 | ⟨hab, h1b⟩
  · rcases h2 with h2 | ⟨hbc, h2b⟩
    · exact Or.inl (lexLtb_trans _ _ _ h1 h2)
    · exact Or.inl (hbc ▸ h1)
  · rcases h2 with h2 | ⟨hbc, h2b⟩
    · exact Or.inl (hab.symm ▸ h2)
    · exact Or.inr ⟨hab.trans hbc, lexLeb_trans _ _ _ h1b h2b⟩

/-- The Python tuple order used by the sort is total. -/
theorem pairLe_total (a b : String × Bytes) : (pairLe a b || pairLe b a) = true := by
  simp only [pairLe, strLt, Bool.or_eq_true, Bool.and_eq_true, decide_eq_true_eq]
  by_cases h1 : lexLtb a.1.data b.1.data = true
  · exact Or.inl (Or.inl h1)
  by_cases h2 : lexLtb b.1.data a.1.data = true
  · exact Or.inr (Or.inl h2)
  have hab : a.1 = b.1 :=
    String.ext (lexLtb_eq_of_not _ _ (Bool.eq_false_iff.mpr h1) (Bool.eq_false_iff.mpr h2))
  by_cases h3 : lexLeb a.2 b.2 = true
  · exact Or.inl (Or.inr ⟨hab, h3⟩)
  by_cases h4 : lexLtb b.2 a.2 = true
  · exact Or.inr (Or.inr ⟨hab.symm, by simp [lexLeb, h4]⟩)
  have h5 : lexLtb a.2 b.2 = false := by
    have h6 := Bool.eq_false_iff.mpr h3
    simp only [lexLeb, Bool.or_eq_false_iff] at h6
    exact h6.1
  exact Or.inl (Or.inr ⟨hab,
    by simp [lexLeb, lexLtb_eq_of_not _ _ h5 (Bool.eq_false_iff.mpr h4)]⟩)

/-- The sort used by the manifest builder permutes its input. -/
theorem sortPairs_perm (files : StrDict) : (sortPairs files).Perm files :=
  List.mergeSort_perm files pairLe

/-- The sort output is sorted under the Python pair order. -/
theorem sortPairs_sorted (files : StrDict) :
    (sortPairs files).Pairwise (fun p q => pairLe p q = true) :=
  List.sorted_mergeSort pairLe_trans pairLe_total files

/-- On a dict with distinct names, the sort is strictly increasing in the
name: each path appears once and in lexicographic order. -/
theorem sortPairs_strict (files : StrDict) (h : (files.map Prod.fst).Nodup) :
    (sortPairs files).Pairwise (fun p q => strLt p.1 q.1 = true) := by
  have hperm := (sortPairs_perm files).map Prod.fst
  have hnd : ((sortPairs files).map Prod.fst).Nodup := hperm.symm.nodup h
  have hne : (sortPairs files).Pairwise (fun p q => p.1 ≠ q.1) :=
    List.pairwise_map.mp hnd
  refine ((sortPairs_sorted files).and hne).imp ?_
  intro a b hand
  rcases hand with ⟨hle, hnab⟩
  simp only [pairLe, Bool.or_eq_true, Bool.and_eq_true, decide_eq_true_eq] at hle
  rcases hle with h | ⟨h, _⟩
  · exact h
  · exact absurd h hnab

/-- Key membership test used by the dict assignment model. -/
theorem dict_any_iff (d : StrDict) (k : String) :
    (d.any (fun p => p.1 == k)) = true ↔ k ∈ d.map Prod.fst := by
  simp only [List.any_eq_true, beq_iff_eq, List.mem_map]

/-- Assigning an existing key leaves the key sequence unchanged. -/
theorem dictInsert_keys_mem (d : StrDict) (k : String) (v : Bytes)
    (h : k ∈ d.map Prod.fst) : (dictInsert d k v).map Prod.fst = d.map Prod.fst := by
  rw [dictInsert, if_pos ((dict_any_iff d k).mpr h), List.map_map]
  apply List.map_congr_left
  intro p _
  by_cases hpk : p.1 = k
  · simp [hpk]
  · simp [hpk]

/-- Assigning a new key appends the pair at the end. -/
theorem dictInsert_new (d : StrDict) (k : String) (v : Bytes)
    (h : k ∉ d.map Prod.fst) : dictInsert d k v = d ++ [(k, v)] := by
  rw [dictInsert, if_neg]
  intro hc
  exact h ((dict_any_iff d k).mp hc)

/-- A fold over entries none of which carries the sought name leaves the
accumulator unchanged. -/
theorem zipReadAux_skip (name : String) :
    ∀ (l : List ZipEntry) (acc : Option Bytes),
      (∀ x ∈ l, x.filename ≠ name) →
      l.foldl (fun acc e => if e.filename = name then some e.content else acc) acc = acc := by
  intro l
  induction l with
  | nil => intro acc _; rfl
  | cons x xs ih =>
    intro acc h
    simp only [List.foldl_cons]
    rw [if_neg (h x (List.mem_cons_self x xs))]
    exact ih acc (fun y hy => h y (List.mem_cons_of_mem x hy))

/-- Reading a name from a template whose names are distinct returns the
content of the entry with that name. -/
theorem zipRead_eq (tmpl : List ZipEntry) (hn : (tmpl.map ZipEntry.filename).Nodup)
    (e : ZipEntry) (he : e ∈ tmpl) : zipRead tmpl e.filename = e.content := by
  have aux : ∀ (l : List ZipEntry) (acc : Option Bytes),
      (l.map ZipEntry.filename).Nodup → e ∈ l →
      l.foldl (fun acc x => if x.filename = e.filename then some x.content else acc) acc =
        some e.content := by
    intro l
    induction l with
    | nil => intro acc _ hmem; exact absurd hmem (List.not_mem_nil e)
    | cons x xs ih =>
      intro acc hnd hmem
      simp only [List.map_cons, List.nodup_cons] at hnd
      simp only [List.foldl_cons]
      rcases List.mem_cons.mp hmem with rfl | hmem2
      · rw [if_pos rfl]
        refine zipReadAux_skip _ xs _ (fun y hy hcontra => hnd.1 ?_)
        exact hcontra ▸ List.mem_map_of_mem ZipEntry.filename hy
      · exact ih _ hnd.2 hmem2
  unfold zipRead
  rw [aux tmpl none hn he]

/-- Keys the collection loop can produce: non-directory, non-metadata names
of template entries. -/
def goodKey (tmpl : List ZipEntry) (k : String) : Prop :=
  strEnds k "/" = false ∧ isSignatureMeta k = false ∧ k ∈ tmpl.map ZipEntry.filename

/-- One step of the collection loop preserves distinctness and goodness of
the accumulated keys. -/
theorem collectStep_invariant (tmpl : List ZipEntry) (repl : StrDict) (acc : StrDict)
    (e : ZipEntry) (he : e ∈ tmpl)
    (h1 : (acc.map Prod.fst).Nodup) (h2 : ∀ k ∈ acc.map Prod.fst, goodKey tmpl k) :
    ((collectStep tmpl repl acc e).map Prod.fst).Nodup ∧
      ∀ k ∈ (collectStep tmpl repl acc e).map Prod.fst, goodKey tmpl k := by
  unfold collectStep
  by_cases hd : e.isDir = true
  · simp only [hd, if_true]
    exact ⟨h1, h2⟩
  · by_cases hm : isSignatureMeta e.filename = true
    · simp only [hd, hm, if_false, if_true]
      exact ⟨h1, h2⟩
    · have hgood : goodKey tmpl e.filename :=
        ⟨Bool.eq_false_iff.mpr hd, Bool.eq_false_iff.mpr hm,
          List.mem_map_of_mem ZipEntry.filename he⟩
      have hins : ∀ v : Bytes,
          ((dictInsert acc e.filename v).map Prod.fst).Nodup ∧
            ∀ k ∈ (dictInsert acc e.filename v).map Prod.fst, goodKey tmpl k := by
        intro v
        by_cases hk : e.filename ∈ acc.map Prod.fst
        · rw [dictInsert_keys_mem acc _ v hk]
          exact ⟨h1, h2⟩
        · rw [dictInsert_new acc _ v hk]
          constructor
          · rw [List.map_append]
            exact List.Nodup.append h1 (List.nodup_singleton _)
              (by simpa [List.disjoint_singleton] using hk)
          · intro k hkmem
            rw [List.map_append, List.mem_append] at hkmem
            rcases hkmem with hkm | hkm
            · exact h2 k hkm
            · simp only [List.map_cons, List.map_nil, List.mem_singleton] at hkm
              exact hkm ▸ hgood
      cases hrepl : dictGet? repl e.filename with
      | some v =>
        simp only [hd, hm, if_false, hrepl]
        exact hins v
      | none =>
        simp only [hd, hm, if_false, hrepl]
        exact hins _

/-- Invariant of the whole collection loop. -/
theorem collect_foldl_invariant (tmpl : List ZipEntry) (repl : StrDict) :
    ∀ (rest : List ZipEntry) (acc : StrDict),
      (acc.map Prod.fst).Nodup →
      (∀ k ∈ acc.map Prod.fst, goodKey tmpl k) →
      (∀ e ∈ rest, e ∈ tmpl) →
      ((rest.foldl (collectStep tmpl repl) acc).map Prod.fst).Nodup ∧
        ∀ k ∈ (rest.foldl (collectStep tmpl repl) acc).map Prod.fst, goodKey tmpl k := by
  intro rest
  induction rest with
  | nil => intro acc hn hg _; exact ⟨hn, hg⟩
  | cons e es ih =>
    intro acc hn hg hsub
    simp only [List.foldl_cons]
    have hstep := collectStep_invariant tmpl repl acc e
      (hsub e (List.mem_cons_self e es)) hn hg
    exact ih _ hstep.1 hstep.2 (fun x hx => hsub x (List.mem_cons_of_mem e hx))

/-- The keys of the built entry set are distinct, never directory or
metadata names, and all name template entries. -/
theorem buildFiles_invariant (tmpl : List ZipEntry) (repl : StrDict) :
    (((buildFiles tmpl repl).map Prod.fst).Nodup) ∧
      ∀ k ∈ (buildFiles tmpl repl).map Prod.fst, goodKey tmpl k :=
  collect_foldl_invariant tmpl repl tmpl [] (by simp) (by simp) (fun _ h => h)

/-- With an empty replacements dict, the collection loop appends exactly the
kept template entries, in template order, carrying their own contents. -/
theorem buildFiles_nil_aux (tmpl : List ZipEntry)
    (hnodup : (tmpl.map ZipEntry.filename).Nodup) :
    ∀ (rest : List ZipEntry) (acc : StrDict),
      (∀ e ∈ rest, e ∈ tmpl) →
      (rest.map ZipEntry.filename).Nodup →
      (∀ e ∈ rest, e.filename ∉ acc.map Prod.fst) →
      rest.foldl (collectStep tmpl []) acc =
        acc ++ (rest.filter (fun e => !e.isDir && !isSignatureMeta e.filename)).map
          (fun e => (e.filename, e.content)) := by
  intro rest
  induction rest with
  | nil => intro acc _ _ _; simp
  | cons e es ih =>
    intro acc hsub hnd hdisj
    simp only [List.map_cons, List.nodup_cons] at hnd
    simp only [List.foldl_cons, List.filter_cons]
    by_cases hd : e.isDir = true
    · rw [show collectStep tmpl [] acc e = acc from by simp [collectStep, hd]]
      simp only [hd, Bool.not_true, Bool.false_and, Bool.false_eq_true, if_false]
      exact ih acc (fun x hx => hsub x (List.mem_cons_of_mem e hx)) hnd.2
        (fun x hx => hdisj x (List.mem_cons_of_mem e hx))
    · by_cases hm : isSignatureMeta e.filename = true
      · rw [show collectStep tmpl [] acc e = acc from by simp [collectStep, hd, hm]]
        simp only [hm, Bool.not_true, Bool.and_false, Bool.false_eq_true, if_false]
        exact ih acc (fun x hx => hsub x (List.mem_cons_of_mem e hx)) hnd.2
          (fun x hx => hdisj x (List.mem_cons_of_mem e hx))
      · have hread : zipRead tmpl e.filename = e.content :=
          zipRead_eq tmpl hnodup e (hsub e (List.mem_cons_self e es))
        have hstep : collectStep tmpl [] acc e = acc ++ [(e.filename, e.content)] := by
          simp only [collectStep, hd, hm, Bool.false_eq_true, if_false]
          rw [show dictGet? [] e.filename = none from rfl, hread]
          exact dictInsert_new acc _ _ (hdisj e (List.mem_cons_self e es))
        rw [hstep]
        have hkeep : (!e.isDir && !isSignatureMeta e.filename) = true := by
          simp [Bool.eq_false_iff.mpr hd, Bool.eq_false_iff.mpr hm]
        simp only [hkeep, if_true, List.map_cons]
        rw [ih (acc ++ [(e.filename, e.content)])
          (fun x hx => hsub x (List.mem_cons_of_mem e hx)) hnd.2 ?_]
        · simp
        · intro x hx
          rw [List.map_append, List.mem_append]
          rintro (hmem | hmem)
          · exact hdisj x (List.mem_cons_of_mem e hx) hmem
          · simp only [List.map_cons, List.map_nil, List.mem_singleton] at hmem
            exact hnd.1 (hmem ▸ List.mem_map_of_mem ZipEntry.filename hx)

/-- The collection loop only consults the replacements dict through lookup,
so two dicts with the same lookup behavior drive it identically. -/
theorem collect_foldl_repl_congr (tmpl : List ZipEntry) (r1 r2 : StrDict)
    (hr : ∀ k, dictGet? r1 k = dictGet? r2 k) :
    ∀ (rest : List ZipEntry) (acc : StrDict),
      rest.foldl (collectStep tmpl r1) acc = rest.foldl (collectStep tmpl r2) acc := by
  intro rest
  induction rest with
  | nil => intro _; rfl
  | cons e es ih =>
    intro acc
    simp only [List.foldl_cons]
    rw [show collectStep tmpl r1 acc e = collectStep tmpl r2 acc e from by
      simp only [collectStep, hr]]
    exact ih _

/-- The noninterference hypothesis of two templates relative to one
replacements dict: equal name sequences, and equal contents wherever the
name is not replaced. -/
def contentAgrees (repl : StrDict) (e1 e2 : ZipEntry) : Prop :=
  e1.filename = e2.filename ∧
    (dictGet? repl e1.filename = none → e1.content = e2.content)

/-- The name-resolution fold returns the same result on two agreeing
templates, for any name that is not replaced. -/
theorem zipRead_congr (repl : StrDict) :
    ∀ (t1 t2 : List ZipEntry), List.Forall₂ (contentAgrees repl) t1 t2 →
      ∀ (name : String), dictGet? repl name = none →
      ∀ (a1 a2 : Option Bytes), a1 = a2 →
      t1.foldl (fun acc e => if e.filename = name then some e.content else acc) a1 =
        t2.foldl (fun acc e => if e.filename = name then some e.content else acc) a2 := by
  intro t1 t2 h
  induction h with
  | nil => intro name _ a1 a2 ha; simpa using ha
  | @cons e1 e2 l1 l2 h1 h2 ih =>
    intro name hname a1 a2 ha
    simp only [List.foldl_cons]
    apply ih name hname
    rcases h1 with ⟨hfn, hct⟩
    by_cases he : e1.filename = name
    · rw [if_pos he, if_pos (hfn ▸ he), hct (by rw [he]; exact hname)]
    · rw [if_neg he, if_neg (hfn ▸ he), ha]

/-- Reading an unreplaced name agrees across agreeing templates. -/
theorem zipRead_agree (repl : StrDict) (t1 t2 : List ZipEntry)
    (h : List.Forall₂ (contentAgrees repl) t1 t2) (name : String)
    (hname : dictGet? repl name = none) : zipRead t1 name = zipRead t2 name := by
  unfold zipRead
  rw [zipRead_congr repl t1 t2 h name hname none none rfl]

/-- The collection loop never reads the template content of a replaced
path, so agreeing templates build identical entry sets. -/
theorem collect_foldl_tmpl_congr (repl : StrDict) (t1 t2 : List ZipEntry)
    (hall : List.Forall₂ (contentAgrees repl) t1 t2) :
    ∀ (l1 l2 : List ZipEntry), List.Forall₂ (contentAgrees repl) l1 l2 →
      ∀ (acc : StrDict),
        l1.foldl (collectStep t1 repl) acc = l2.foldl (collectStep t2 repl) acc := by
  intro l1 l2 h
  induction h with
  | nil => intro _; rfl
  | @cons e1 e2 l1 l2 h1 h2 ih =>
    intro acc
    simp only [List.foldl_cons]
    have hstep : collectStep t1 repl acc e1 = collectStep t2 repl acc e2 := by
      rcases h1 with ⟨hfn, hct⟩
      unfold collectStep
      simp only [ZipEntry.isDir]
      simp only [← hfn]
      by_cases hd : strEnds e1.filename "/" = true
      · simp [hd]
      · by_cases hm : isSignatureMeta e1.filename = true
        · simp [hd, hm]
        · simp only [hd, hm, Bool.false_eq_true, if_false]
          cases hg : dictGet? repl e1.filename with
          | some v => rfl
          | none => rw [zipRead_agree repl t1 t2 hall e1.filename hg]
    rw [hstep]
    exact ih _

/-- Once a read has failed, the fallible collection loop stays failed. -/
theorem foldlF_none (tmpl : List FZipEntry) (repl : StrDict) :
    ∀ (l : List FZipEntry), l.foldl (collectStepF tmpl repl) none = none := by
  intro l
  induction l with
  | nil => rfl
  | cons e es ih =>
    simp only [List.foldl_cons]
    exact ih

/-- A failing read of a kept, unreplaced entry makes the whole collection
loop fail. -/
theorem buildFilesF_fails (tmpl : List FZipEntry) (repl : StrDict) (e : FZipEntry)
    (he : e ∈ tmpl) (hd : e.isDir = false) (hm : isSignatureMeta e.filename = false)
    (hrep : dictGet? repl e.filename = none) (hread : fzipRead tmpl e.filename = none) :
    buildFilesF tmpl repl = none := by
  obtain ⟨s, t, rfl⟩ := List.append_of_mem he
  unfold buildFilesF
  rw [List.foldl_append, List.foldl_cons]
  have hstep : ∀ acc : Option StrDict, collectStepF (s ++ e :: t) repl acc e = none := by
    intro acc
    cases acc with
    | none => rfl
    | some files =>
      simp only [collectStepF, FZipEntry.isDir] at *
      simp only [collectStepF, hd, hm, Bool.false_eq_true, if_false, hrep, hread]
  rw [hstep _]
  exact foldlF_none _ _ t

/-- C2: for every entry set with distinct paths, the manifest is the UTF-8
bytes of the CRLF-join of the two fixed header lines and a blank line,
followed by one Name line, one digest line carrying base64 of the SHA-256
of the content, and a blank line per entry, over the entries sorted by
path; the sorted sequence is a permutation of the entry set (exactly one
pair per path) and is strictly increasing in the path (lexicographic
order). -/
theorem manifest_structure (sha256 : Bytes → Bytes) (files : StrDict)
    (hkeys : (files.map Prod.fst).Nodup) :
    _create_manifest sha256 files =
      utf8 (String.intercalate "\r\n"
        (["Manifest-Version: 1.0", "Created-By: keylay", ""] ++
          (sortPairs files).flatMap (fun p =>
            ["Name: " ++ p.1, "SHA-256-Digest: " ++ b64encode (sha256 p.2), ""]))) ∧
      (sortPairs files).Perm files ∧
      (sortPairs files).Pairwise (fun p q => strLt p.1 q.1 = true) := by
  refine ⟨?_, sortPairs_perm files, sortPairs_strict files hkeys⟩
  simp only [_create_manifest, _hash_file]
  rw [foldl_extend_eq]

/-- Witness for the manifest structure at a concrete two-entry set. -/
theorem manifest_structure_witness :
    ((([("b", [1]), ("a", [2])] : StrDict)).map Prod.fst).Nodup ∧
      (_create_manifest demoHash [("b", [1]), ("a", [2])] =
        utf8 (String.intercalate "\r\n"
          (["Manifest-Version: 1.0", "Created-By: keylay", ""] ++
            (sortPairs [("b", [1]), ("a", [2])]).flatMap (fun p =>
              ["Name: " ++ p.1, "SHA-256-Digest: " ++ b64encode (demoHash p.2), ""]))) ∧
        (sortPairs [("b", [1]), ("a", [2])]).Perm [("b", [1]), ("a", [2])] ∧
        (sortPairs [("b", [1]), ("a", [2])]).Pairwise (fun p q => strLt p.1 q.1 = true)) :=
  ⟨by decide, manifest_structure demoHash [("b", [1]), ("a", [2])] (by decide)⟩

/-- C1: for every entry set with distinct paths, the signature file over
the manifest built from that set is the UTF-8 bytes of the CRLF-join of the
four header lines (version, tool, base64 SHA-256 of the whole manifest,
base64 SHA-256 of the fixed manifest main section) and a blank line,
followed per sorted entry by a Name line, a digest line whose value is
base64 of the SHA-256 of the exact manifest fragment for that entry — not
of the content itself — and a blank line; the sorted sequence is a
permutation of the entry set and strictly increasing in the path. -/
theorem signature_file_structure (sha256 : Bytes → Bytes) (files : StrDict)
    (hkeys : (files.map Prod.fst).Nodup) :
    _create_signature_file sha256 (_create_manifest sha256 files) files =
      utf8 (String.intercalate "\r\n"
        (["Signature-Version: 1.0", "Created-By: keylay",
          "SHA-256-Digest-Manifest: " ++ b64encode (sha256 (_create_manifest sha256 files)),
          "SHA-256-Digest-Manifest-Main-Attributes: " ++
            b64encode (sha256 (utf8 "Manifest-Version: 1.0\r\nCreated-By: keylay\r\n\r\n")),
          ""] ++
          (sortPairs files).flatMap (fun p =>
            ["Name: " ++ p.1,
              "SHA-256-Digest: " ++ b64encode (sha256 (utf8 ("Name: " ++ p.1 ++
                "\r\nSHA-256-Digest: " ++ b64encode (sha256 p.2) ++ "\r\n\r\n"))),
              ""]))) ∧
      (sortPairs files).Perm files ∧
      (sortPairs files).Pairwise (fun p q => strLt p.1 q.1 = true) := by
  refine ⟨?_, sortPairs_perm files, sortPairs_strict files hkeys⟩
  simp only [_create_signature_file, _hash_manifest_main, _hash_manifest_section, _hash_file]
  rw [foldl_extend_eq]

/-- Witness for the signature-file structure at a concrete two-entry set. -/
theorem signature_file_structure_witness :
    ((([("b", [1]), ("a", [2])] : StrDict)).map Prod.fst).Nodup ∧
      (_create_signature_file demoHash (_create_manifest demoHash [("b", [1]), ("a", [2])])
          [("b", [1]), ("a", [2])] =
        utf8 (String.intercalate "\r\n"
          (["Signature-Version: 1.0", "Created-By: keylay",
            "SHA-256-Digest-Manifest: " ++
              b64encode (demoHash (_create_manifest demoHash [("b", [1]), ("a", [2])])),
            "SHA-256-Digest-Manifest-Main-Attributes: " ++
              b64encode (demoHash (utf8 "Manifest-Version: 1.0\r\nCreated-By: keylay\r\n\r\n")),
            ""] ++
            (sortPairs [("b", [1]), ("a", [2])]).flatMap (fun p =>
              ["Name: " ++ p.1,
                "SHA-256-Digest: " ++ b64encode (demoHash (utf8 ("Name: " ++ p.1 ++
                  "\r\nSHA-256-Digest: " ++ b64encode (demoHash p.2) ++ "\r\n\r\n"))),
                ""]))) ∧
        (sortPairs [("b", [1]), ("a", [2])]).Perm [("b", [1]), ("a", [2])] ∧
        (sortPairs [("b", [1]), ("a", [2])]).Pairwise (fun p q => strLt p.1 q.1 = true)) :=
  ⟨by decide, signature_file_structure demoHash [("b", [1]), ("a", [2])] (by decide)⟩

/-- C4: with the empty replacements dict and distinct template names, the
built entry set is exactly the non-directory template entries minus the
signature-metadata entries — those under the metadata directory ending in
one of the four signature suffixes or equal to the manifest path — each
kept entry carrying its original template bytes. -/
theorem entry_set_empty_replacements (tmpl : List ZipEntry)
    (hnodup : (tmpl.map ZipEntry.filename).Nodup) :
    buildFiles tmpl [] =
      (tmpl.filter (fun e => !(strEnds e.filename "/") &&
        !(strStarts e.filename "META-INF/" &&
          (strEnds e.filename ".SF" || strEnds e.filename ".RSA" ||
            strEnds e.filename ".DSA" || strEnds e.filename ".EC" ||
            e.filename == "META-INF/MANIFEST.MF")))).map
        (fun e => (e.filename, e.content)) := by
  have h := buildFiles_nil_aux tmpl hnodup tmpl [] (fun _ hx => hx) hnodup (by simp)
  exact h

/-- Witness for the empty-replacements entry set at a concrete template
holding metadata, a plain metadata-directory file, a directory and a
payload entry. -/
theorem entry_set_empty_replacements_witness :
    ((([⟨"META-INF/MANIFEST.MF", [1]⟩, ⟨"META-INF/CERT.SF", [2]⟩, ⟨"META-INF/extra.txt", [3]⟩,
        ⟨"res/", []⟩, ⟨"res/Q2.kcm", [4]⟩] : List ZipEntry).map ZipEntry.filename).Nodup) ∧
      buildFiles [⟨"META-INF/MANIFEST.MF", [1]⟩, ⟨"META-INF/CERT.SF", [2]⟩,
          ⟨"META-INF/extra.txt", [3]⟩, ⟨"res/", []⟩, ⟨"res/Q2.kcm", [4]⟩] [] =
        (([⟨"META-INF/MANIFEST.MF", [1]⟩, ⟨"META-INF/CERT.SF", [2]⟩,
          ⟨"META-INF/extra.txt", [3]⟩, ⟨"res/", []⟩,
          ⟨"res/Q2.kcm", [4]⟩] : List ZipEntry).filter (fun e => !(strEnds e.filename "/") &&
            !(strStarts e.filename "META-INF/" &&
              (strEnds e.filename ".SF" || strEnds e.filename ".RSA" ||
                strEnds e.filename ".DSA" || strEnds e.filename ".EC" ||
                e.filename == "META-INF/MANIFEST.MF")))).map
          (fun e => (e.filename, e.content)) :=
  ⟨by decide, entry_set_empty_replacements _ (by decide)⟩

/-- C5: the output archive is written as the manifest entry, the signature
file entry and the detached signature entry under their fixed paths, then
every entry of the built entry set in build order; and no path is written
twice. -/
theorem output_write_order {C K : Type} (sha256 : Bytes → Bytes)
    (hashOf : HashAlg → Bytes → Bytes) (der : SignedData C → Bytes)
    (signer : ApkSigner C K) (tmpl : List ZipEntry) (repl : StrDict) :
    sign_apk sha256 hashOf der signer tmpl repl =
      ("META-INF/MANIFEST.MF", _create_manifest sha256 (buildFiles tmpl repl)) ::
        ("META-INF/KEYLAY.SF", _create_signature_file sha256
          (_create_manifest sha256 (buildFiles tmpl repl)) (buildFiles tmpl repl)) ::
        ("META-INF/KEYLAY.RSA", der (_create_pkcs7_signature hashOf signer
          (_create_signature_file sha256 (_create_manifest sha256 (buildFiles tmpl repl))
            (buildFiles tmpl repl)))) ::
        buildFiles tmpl repl ∧
      ((sign_apk sha256 hashOf der signer tmpl repl).map Prod.fst).Nodup := by
  have hinv := buildFiles_invariant tmpl repl
  have hnotin : ∀ k : String, isSignatureMeta k = true →
      k ∉ (buildFiles tmpl repl).map Prod.fst := by
    intro k hk hmem
    have hgood := (hinv.2 k hmem).2.1
    rw [hgood] at hk
    exact Bool.false_ne_true hk
  refine ⟨rfl, ?_⟩
  show (("META-INF/MANIFEST.MF" : String) :: "META-INF/KEYLAY.SF" :: "META-INF/KEYLAY.RSA" ::
    (buildFiles tmpl repl).map Prod.fst).Nodup
  rw [List.nodup_cons, List.nodup_cons, List.nodup_cons]
  refine ⟨?_, ?_, hnotin _ (by decide), hinv.1⟩
  · simp only [List.mem_cons, not_or]
    exact ⟨by decide, by decide, hnotin _ (by decide)⟩
  · simp only [List.mem_cons, not_or]
    exact ⟨by decide, hnotin _ (by decide)⟩

/-- C3 counterexample: with a template holding a single entry and a
replacement at a fresh path, the fresh path satisfies the premise of the
claim (it is a replacements key naming no template entry) yet it is not
inserted: the built entry set carries only the template entry, and the
payload section of the signed output does not contain the fresh path. -/
theorem replacement_new_path_dropped :
    dictGet? [("new.txt", [2])] "new.txt" = some [2] ∧
      "new.txt" ∉ ([⟨"a.txt", [1]⟩] : List ZipEntry).map ZipEntry.filename ∧
      buildFiles [⟨"a.txt", [1]⟩] [("new.txt", [2])] = [("a.txt", [1])] ∧
      "new.txt" ∉ ((sign_apk demoHash demoHashOf demoDer demoSigner
        [⟨"a.txt", [1]⟩] [("new.txt", [2])]).drop 3).map Prod.fst := by
  refine ⟨rfl, by decide, rfl, ?_⟩
  show "new.txt" ∉ (buildFiles [⟨"a.txt", [1]⟩] [("new.txt", [2])]).map Prod.fst
  decide

/-- C3 amended: a replacements key that names no template entry is ignored
rather than inserted — it is absent from the built entry set and from the
payload section of the output archive; replacement contents only apply to
paths present in the template. -/
theorem replacement_requires_template_path {C K : Type} (sha256 : Bytes → Bytes)
    (hashOf : HashAlg → Bytes → Bytes) (der : SignedData C → Bytes)
    (signer : ApkSigner C K) (tmpl : List ZipEntry) (repl : StrDict) (p : String)
    (hp : p ∉ tmpl.map ZipEntry.filename) :
    p ∉ (buildFiles tmpl repl).map Prod.fst ∧
      p ∉ ((sign_apk sha256 hashOf der signer tmpl repl).drop 3).map Prod.fst := by
  have hinv := buildFiles_invariant tmpl repl
  have h1 : p ∉ (buildFiles tmpl repl).map Prod.fst := fun hmem =>
    hp ((hinv.2 p hmem).2.2)
  exact ⟨h1, h1⟩

/-- Witness for the amended C3 at the counterexample input. -/
theorem replacement_requires_template_path_witness :
    ("new.txt" ∉ ([⟨"a.txt", [1]⟩] : List ZipEntry).map ZipEntry.filename) ∧
      ("new.txt" ∉ (buildFiles [⟨"a.txt", [1]⟩] [("new.txt", [2])]).map Prod.fst ∧
        "new.txt" ∉ ((sign_apk demoHash demoHashOf demoDer demoSigner
          [⟨"a.txt", [1]⟩] [("new.txt", [2])]).drop 3).map Prod.fst) :=
  ⟨by decide, replacement_requires_template_path demoHash demoHashOf demoDer demoSigner
    [⟨"a.txt", [1]⟩] [("new.txt", [2])] "new.txt" (by decide)⟩

/-- C6: for every signing call, the detached signature is detached (no
embedded content), carries exactly one signer, that signer uses SHA-256,
and its signed attribute list contains the content-type attribute and the
message-digest attribute over the signed data while never containing the
SMIMECapabilities capability advertisement. -/
theorem pkcs7_attributes {C K : Type} (hashOf : HashAlg → Bytes → Bytes)
    (signer : ApkSigner C K) (data : Bytes) :
    (_create_pkcs7_signature hashOf signer data).detached = true ∧
      (_create_pkcs7_signature hashOf signer data).content = none ∧
      (_create_pkcs7_signature hashOf signer data).signerInfos.length = 1 ∧
      ∀ si ∈ (_create_pkcs7_signature hashOf signer data).signerInfos,
        si.alg = HashAlg.SHA256 ∧
          SignedAttr.contentType ∈ si.signedAttrs ∧
          SignedAttr.messageDigest (hashOf HashAlg.SHA256 data) ∈ si.signedAttrs ∧
          SignedAttr.smimeCapabilities ∉ si.signedAttrs := by
  refine ⟨rfl, rfl, rfl, ?_⟩
  intro si hsi
  have hmem1 : PKCS7Option.DetachedSignature ∈
      [PKCS7Option.DetachedSignature, PKCS7Option.NoCapabilities] := by decide
  have hmem2 : PKCS7Option.NoCapabilities ∈
      [PKCS7Option.DetachedSignature, PKCS7Option.NoCapabilities] := by decide
  have hmem3 : PKCS7Option.NoAttributes ∉
      [PKCS7Option.DetachedSignature, PKCS7Option.NoCapabilities] := by decide
  have hone : si = ⟨signer.cert, HashAlg.SHA256,
      [SignedAttr.contentType, SignedAttr.messageDigest (hashOf HashAlg.SHA256 data)]⟩ := by
    simpa [_create_pkcs7_signature, PKCS7SignatureBuilder.sign,
      PKCS7SignatureBuilder.add_signer, PKCS7SignatureBuilder.set_data,
      hmem1, hmem2, hmem3] using hsi
  subst hone
  exact ⟨rfl, by simp, by simp, by simp⟩

/-- C7: signing is deterministic in its text artifacts — equal template
entry sequences and replacement dicts with equal lookup behavior produce
the same entry set, the same manifest bytes and the same signature-file
bytes. -/
theorem deterministic_artifacts (sha256 : Bytes → Bytes)
    (t1 t2 : List ZipEntry) (r1 r2 : StrDict) (ht : t1 = t2)
    (hr : ∀ k, dictGet? r1 k = dictGet? r2 k) :
    buildFiles t1 r1 = buildFiles t2 r2 ∧
      _create_manifest sha256 (buildFiles t1 r1) =
        _create_manifest sha256 (buildFiles t2 r2) ∧
      _create_signature_file sha256 (_create_manifest sha256 (buildFiles t1 r1))
          (buildFiles t1 r1) =
        _create_signature_file sha256 (_create_manifest sha256 (buildFiles t2 r2))
          (buildFiles t2 r2) := by
  subst ht
  have h : buildFiles t1 r1 = buildFiles t1 r2 :=
    collect_foldl_repl_congr t1 r1 r2 hr t1 []
  exact ⟨h, by rw [h], by rw [h]⟩

/-- Witness for determinism with two replacement dicts that are equal as
maps but listed in different insertion orders. -/
theorem deterministic_artifacts_witness :
    (([⟨"a", [0]⟩, ⟨"b", [7]⟩] : List ZipEntry) = [⟨"a", [0]⟩, ⟨"b", [7]⟩] ∧
      ∀ k, dictGet? [("a", [1]), ("b", [2])] k = dictGet? [("b", [2]), ("a", [1])] k) ∧
      (buildFiles [⟨"a", [0]⟩, ⟨"b", [7]⟩] [("a", [1]), ("b", [2])] =
          buildFiles [⟨"a", [0]⟩, ⟨"b", [7]⟩] [("b", [2]), ("a", [1])] ∧
        _create_manifest demoHash
            (buildFiles [⟨"a", [0]⟩, ⟨"b", [7]⟩] [("a", [1]), ("b", [2])]) =
          _create_manifest demoHash
            (buildFiles [⟨"a", [0]⟩, ⟨"b", [7]⟩] [("b", [2]), ("a", [1])]) ∧
        _create_signature_file demoHash
            (_create_manifest demoHash
              (buildFiles [⟨"a", [0]⟩, ⟨"b", [7]⟩] [("a", [1]), ("b", [2])]))
            (buildFiles [⟨"a", [0]⟩, ⟨"b", [7]⟩] [("a", [1]), ("b", [2])]) =
          _create_signature_file demoHash
            (_create_manifest demoHash
              (buildFiles [⟨"a", [0]⟩, ⟨"b", [7]⟩] [("b", [2]), ("a", [1])]))
            (buildFiles [⟨"a", [0]⟩, ⟨"b", [7]⟩] [("b", [2]), ("a", [1])])) := by
  have hr : ∀ k, dictGet? [("a", [1]), ("b", [2])] k =
      dictGet? [("b", [2]), ("a", [1])] k := by
    intro k
    simp only [dictGet?, List.find?]
    cases h1 : (("a" : String) == k) <;> cases h2 : (("b" : String) == k) <;> simp_all
    subst h1
    exact absurd h2 (by decide)
  exact ⟨⟨rfl, hr⟩,
    deterministic_artifacts demoHash [⟨"a", [0]⟩, ⟨"b", [7]⟩] [⟨"a", [0]⟩, ⟨"b", [7]⟩]
      [("a", [1]), ("b", [2])] [("b", [2]), ("a", [1])] rfl hr⟩

/-- C8: if reading a kept, unreplaced template entry raises a format error,
the whole signing call aborts with the error surfaced and the
caller-supplied output buffer left exactly as it was: every template read
happens before the first output write. -/
theorem error_leaves_output_unchanged {C K : Type} (sha256 : Bytes → Bytes)
    (hashOf : HashAlg → Bytes → Bytes) (der : SignedData C → Bytes)
    (signer : ApkSigner C K) (tmpl : List FZipEntry) (repl : StrDict)
    (out0 : List (String × Bytes)) (e : FZipEntry) (he : e ∈ tmpl)
    (hd : e.isDir = false) (hm : isSignatureMeta e.filename = false)
    (hrep : dictGet? repl e.filename = none) (hread : fzipRead tmpl e.filename = none) :
    sign_apkF sha256 hashOf der signer tmpl repl out0 = (none, out0) := by
  unfold sign_apkF
  rw [buildFilesF_fails tmpl repl e he hd hm hrep hread]

/-- Witness for the failure case at a one-entry template whose read fails. -/
theorem error_leaves_output_unchanged_witness :
    ((⟨"bad.bin", none⟩ : FZipEntry) ∈ ([⟨"bad.bin", none⟩] : List FZipEntry) ∧
      (⟨"bad.bin", none⟩ : FZipEntry).isDir = false ∧
      isSignatureMeta (FZipEntry.filename ⟨"bad.bin", none⟩) = false ∧
      dictGet? [] (FZipEntry.filename ⟨"bad.bin", none⟩) = none ∧
      fzipRead [⟨"bad.bin", none⟩] (FZipEntry.filename ⟨"bad.bin", none⟩) = none) ∧
      sign_apkF demoHash demoHashOf demoDer demoSigner [⟨"bad.bin", none⟩] []
        [("seed", [0])] = (none, [("seed", [0])]) :=
  ⟨⟨by decide, by decide, by decide, rfl, rfl⟩,
    error_leaves_output_unchanged demoHash demoHashOf demoDer demoSigner
      [⟨"bad.bin", none⟩] [] [("seed", [0])] ⟨"bad.bin", none⟩
      (by decide) (by decide) (by decide) rfl rfl⟩

/-- C9: a signature-metadata path present in the template is skipped before
the replacement lookup, so even when it is a replacements key it never
enters the entry set, the sorted entry sequence the manifest lists, or the
payload section of the output archive. -/
theorem metadata_replacement_ignored {C K : Type} (sha256 : Bytes → Bytes)
    (hashOf : HashAlg → Bytes → Bytes) (der : SignedData C → Bytes)
    (signer : ApkSigner C K) (tmpl : List ZipEntry) (repl : StrDict)
    (p : String) (v : Bytes) (hp : p ∈ tmpl.map ZipEntry.filename)
    (hmeta : isSignatureMeta p = true) (hv : dictGet? repl p = some v) :
    p ∉ (buildFiles tmpl repl).map Prod.fst ∧
      p ∉ (sortPairs (buildFiles tmpl repl)).map Prod.fst ∧
      p ∉ ((sign_apk sha256 hashOf der signer tmpl repl).drop 3).map Prod.fst := by
  have hinv := buildFiles_invariant tmpl repl
  have h1 : p ∉ (buildFiles tmpl repl).map Prod.fst := by
    intro hmem
    have hgood := (hinv.2 p hmem).2.1
    rw [hgood] at hmeta
    exact Bool.false_ne_true hmeta
  refine ⟨h1, ?_, h1⟩
  intro hmem
  exact h1 (((sortPairs_perm (buildFiles tmpl repl)).map Prod.fst).mem_iff.mp hmem)

/-- Witness for the metadata-skip at a template carrying a replaced
metadata entry. -/
theorem metadata_replacement_ignored_witness :
    ("META-INF/CERT.RSA" ∈ ([⟨"META-INF/CERT.RSA", [7]⟩, ⟨"res/a.kcm", [1]⟩] :
        List ZipEntry).map ZipEntry.filename ∧
      isSignatureMeta "META-INF/CERT.RSA" = true ∧
      dictGet? [("META-INF/CERT.RSA", [8])] "META-INF/CERT.RSA" = some [8]) ∧
      ("META-INF/CERT.RSA" ∉ (buildFiles [⟨"META-INF/CERT.RSA", [7]⟩, ⟨"res/a.kcm", [1]⟩]
          [("META-INF/CERT.RSA", [8])]).map Prod.fst ∧
        "META-INF/CERT.RSA" ∉ (sortPairs (buildFiles
          [⟨"META-INF/CERT.RSA", [7]⟩, ⟨"res/a.kcm", [1]⟩]
          [("META-INF/CERT.RSA", [8])])).map Prod.fst ∧
        "META-INF/CERT.RSA" ∉ ((sign_apk demoHash demoHashOf demoDer demoSigner
          [⟨"META-INF/CERT.RSA", [7]⟩, ⟨"res/a.kcm", [1]⟩]
          [("META-INF/CERT.RSA", [8])]).drop 3).map Prod.fst) :=
  ⟨⟨by decide, by decide, rfl⟩,
    metadata_replacement_ignored demoHash demoHashOf demoDer demoSigner
      [⟨"META-INF/CERT.RSA", [7]⟩, ⟨"res/a.kcm", [1]⟩] [("META-INF/CERT.RSA", [8])]
      "META-INF/CERT.RSA" [8] (by decide) (by decide) rfl⟩

/-- C10: the entry set, manifest and signature file do not depend on the
template bytes at replaced paths — two templates with equal name sequences
and equal contents at unreplaced names produce identical artifacts. -/
theorem template_noninterference (sha256 : Bytes → Bytes)
    (t1 t2 : List ZipEntry) (repl : StrDict)
    (h : List.Forall₂ (contentAgrees repl) t1 t2) :
    buildFiles t1 repl = buildFiles t2 repl ∧
      _create_manifest sha256 (buildFiles t1 repl) =
        _create_manifest sha256 (buildFiles t2 repl) ∧
      _create_signature_file sha256 (_create_manifest sha256 (buildFiles t1 repl))
          (buildFiles t1 repl) =
        _create_signature_file sha256 (_create_manifest sha256 (buildFiles t2 repl))
          (buildFiles t2 repl) := by
  have hb : buildFiles t1 repl = buildFiles t2 repl :=
    collect_foldl_tmpl_congr repl t1 t2 h t1 t2 h []
  exact ⟨hb, by rw [hb], by rw [hb]⟩

/-- Witness for noninterference with two templates that differ only in the
bytes stored at the replaced path. -/
theorem template_noninterference_witness :
    List.Forall₂ (contentAgrees [("res/Q2.kcm", [5])])
        [⟨"res/Q2.kcm", [1]⟩, ⟨"x.txt", [3]⟩] [⟨"res/Q2.kcm", [9, 9]⟩, ⟨"x.txt", [3]⟩] ∧
      (buildFiles [⟨"res/Q2.kcm", [1]⟩, ⟨"x.txt", [3]⟩] [("res/Q2.kcm", [5])] =
          buildFiles [⟨"res/Q2.kcm", [9, 9]⟩, ⟨"x.txt", [3]⟩] [("res/Q2.kcm", [5])] ∧
        _create_manifest demoHash
            (buildFiles [⟨"res/Q2.kcm", [1]⟩, ⟨"x.txt", [3]⟩] [("res/Q2.kcm", [5])]) =
          _create_manifest demoHash
            (buildFiles [⟨"res/Q2.kcm", [9, 9]⟩, ⟨"x.txt", [3]⟩] [("res/Q2.kcm", [5])]) ∧
        _create_signature_file demoHash
            (_create_manifest demoHash
              (buildFiles [⟨"res/Q2.kcm", [1]⟩, ⟨"x.txt", [3]⟩] [("res/Q2.kcm", [5])]))
            (buildFiles [⟨"res/Q2.kcm", [1]⟩, ⟨"x.txt", [3]⟩] [("res/Q2.kcm", [5])]) =
          _create_signature_file demoHash
            (_create_manifest demoHash
              (buildFiles [⟨"res/Q2.kcm", [9, 9]⟩, ⟨"x.txt", [3]⟩] [("res/Q2.kcm", [5])]))
            (buildFiles [⟨"res/Q2.kcm", [9, 9]⟩, ⟨"x.txt", [3]⟩] [("res/Q2.kcm", [5])])) := by
  have hf : List.Forall₂ (contentAgrees [("res/Q2.kcm", [5])])
      [⟨"res/Q2.kcm", [1]⟩, ⟨"x.txt", [3]⟩] [⟨"res/Q2.kcm", [9, 9]⟩, ⟨"x.txt", [3]⟩] := by
    refine List.Forall₂.cons ⟨rfl, fun hc => absurd hc (by decide)⟩
      (List.Forall₂.cons ⟨rfl, fun _ => rfl⟩ List.Forall₂.nil)
  exact ⟨hf, template_noninterference demoHash _ _ _ hf⟩

end Keylay
